import Mathlib

/-!
# Verification of the `ri` terminal text editor

Shallow embedding of `src/main.rs` (the `ri` editor): the document buffer
(`EditorRow`), the loader (`EditorConfig::new`), the saver (the `"w"` command
of `EditorConfig::run`), the escape-sequence decoder
(`EditorConfig::read_editor_key`), the cursor-position reply parser
(`EditorConfig::get_cursor_position`), the cursor right limit
(`EditorConfig::curr_right_limit`), and the key handler of the main loop
(`EditorConfig::run`), as pure functions over explicit state.

Modeling conventions:
* Rust `usize`/`u16` values are modeled as `Nat`.  Rust `usize` subtraction
  panics on underflow (debug profile); we use truncated `Nat` subtraction and
  every concrete state appearing in a theorem below avoids underflow.
  Truncating casts `as u16` are modeled by `% 65536`.  Wrapping `u8`
  subtraction `b - b'0'` (release profile) is modeled by `(b + 208) % 256`.
* Operations that can panic in Rust (`Vec`/`String` indexing and
  `Vec::remove`, `Vec::insert`, `String::remove`, `String::insert` out of
  bounds) are modeled as `Option`-valued functions, `none` meaning a panic.
* Terminal input is modeled as a `List Nat` of bytes; a `read` into an
  `n`-byte zero-initialized buffer takes `min n` of the available bytes and
  leaves the rest of the buffer zero, matching raw-mode reads when the typed
  bytes are already queued.
* File contents and rows are `List Char`; Rust `str::len` is the UTF-8 byte
  count, modeled by `strByteLen`.
-/

/-- `EditorMode` from src/main.rs. -/
inductive EditorMode where
  | Normal
  | Insert
  | Command
deriving DecidableEq

/-- `EditorKey` from src/main.rs; `K c` carries the raw byte. -/
inductive EditorKey where
  | ArrowLeft
  | ArrowRight
  | ArrowUp
  | ArrowDown
  | DelKey
  | HomeKey
  | EndKey
  | PageUp
  | PageDown
  | Backspace
  | Insert
  | K (c : Nat)
deriving DecidableEq

/-- `EditorRow` from src/main.rs: a `Vec<char>` plus a stored length field. -/
structure EditorRow where
  chars : List Char
  len : Nat
deriving DecidableEq

/-- Number of bytes of the UTF-8 encoding of one scalar value (what Rust
`str::len` counts per character). -/
def charUtf8Size (c : Char) : Nat :=
  if c.toNat < 128 then 1
  else if c.toNat < 2048 then 2
  else if c.toNat < 65536 then 3
  else 4

/-- Rust `str::len`: the UTF-8 byte count of a string given as its chars. -/
def strByteLen (s : List Char) : Nat :=
  (s.map charUtf8Size).sum

/-- `EditorRow::new`: `chars` is `s.chars().collect()`, `len` is `s.len()`
(the *byte* length of `s`). -/
def EditorRow.new (s : List Char) : EditorRow :=
  { chars := s, len := strByteLen s }

/-- `Vec::insert` helper: insert at position `n` (caller guarantees
`n ≤ length`, otherwise Rust panics; the panic case is handled by the
caller `EditorRow.insert`). -/
def listInsertAt : Nat → Char → List Char → List Char
  | 0, c, l => c :: l
  | _ + 1, c, [] => [c]
  | n + 1, c, x :: l => x :: listInsertAt n c l

/-- `EditorRow::remove`: guarded by `ix < self.len`; inside the guard
`Vec::remove` panics (`none`) when `ix` is out of bounds of `chars`. -/
def EditorRow.remove (r : EditorRow) (ix : Nat) : Option EditorRow :=
  if ix < r.len then
    if ix < r.chars.length then
      some { chars := r.chars.eraseIdx ix, len := r.len - 1 }
    else
      none
  else
    some r

/-- `EditorRow::insert`: guarded by `ix < self.len`; inside the guard
`Vec::insert` panics (`none`) when `ix > chars.len()`. -/
def EditorRow.insert (r : EditorRow) (ix : Nat) (c : Char) : Option EditorRow :=
  if ix < r.len then
    if ix ≤ r.chars.length then
      some { chars := listInsertAt ix c r.chars, len := r.len + 1 }
    else
      none
  else
    some r

/-- `EditorRow::pop`: `Vec::pop` never panics; the inner `if self.len > 0`
re-tests the unchanged length, so it always holds under the outer guard. -/
def EditorRow.pop (r : EditorRow) : EditorRow :=
  if 0 < r.len then { chars := r.chars.dropLast, len := r.len - 1 } else r

/-- `EditorRow::push`. -/
def EditorRow.push (r : EditorRow) (c : Char) : EditorRow :=
  { chars := r.chars ++ [c], len := r.len + 1 }

/-- Split a char list at every newline character; always returns at least one
(possibly empty) piece.  `splitOnNl "a\nb" = ["a", "b"]`,
`splitOnNl "a\n" = ["a", ""]`. -/
def splitOnNl : List Char → List (List Char)
  | [] => [[]]
  | c :: rest =>
    match splitOnNl rest with
    | [] => [[]]
    | p :: ps => if c = '\n' then [] :: p :: ps else (c :: p) :: ps

/-- Strip one trailing carriage return (the `\r` of a `\r\n` line ending). -/
def stripCr (l : List Char) : List Char :=
  if l.getLast? = some '\r' then l.dropLast else l

/-- Rust `str::lines`: split at `\n`, strip a `\r` preceding each `\n`, and
drop a final empty piece (the final line ending is optional); a trailing `\r`
not followed by `\n` is kept.  `splitOnNl` always returns at least one piece,
so `getLastD [] = []` says exactly that the final piece is empty. -/
def rustLines (s : List Char) : List (List Char) :=
  (splitOnNl s).dropLast.map stripCr ++
    (if (splitOnNl s).getLastD [] = [] then [] else [(splitOnNl s).getLastD []])

/-- The row construction of `EditorConfig::new`: one `EditorRow` per line of
`contents.lines()`, plus one empty row when the contents end in `'\n'`. -/
def loadRows (contents : List Char) : List EditorRow :=
  (rustLines contents).map EditorRow.new ++
    (if contents.getLast? = some '\n' then [EditorRow.new []] else [])

/-- `rows.len().to_string().len()`: the number of decimal digits. -/
def digitsLen (n : Nat) : Nat :=
  (Nat.toDigits 10 n).length

/-- The editor state: the fields of `EditorConfig` from src/main.rs, minus
the file descriptors, the log file and the filename (pure I/O handles). -/
structure EditorConfig where
  cx : Nat
  cy : Nat
  max_x : Nat
  screenrows : Nat
  screencols : Nat
  rowoff : Nat
  coloff : Nat
  rightted : Bool
  rows : List EditorRow
  cmd : List Char
  cmdix : Nat
  mode : EditorMode
  cx_base : Nat
deriving DecidableEq

/-- `EditorConfig::new`. -/
def EditorConfig.new (contents : List Char) : EditorConfig :=
  let rows := loadRows contents
  let cx_base := digitsLen rows.length + 4
  { cx := cx_base
    cy := 1
    max_x := cx_base
    screenrows := 0
    screencols := 0
    rowoff := 0
    coloff := 0
    rightted := false
    rows := rows
    cmd := []
    cmdix := 0
    mode := EditorMode.Normal
    cx_base := cx_base }

/-- The `"w"` command of `EditorConfig::run`: for `ix in 0..rows.len() - 1`
write `rows[ix].chars` followed by `'\n'`; the last row is never written.
(When `rows` is empty the Rust `rows.len() - 1` underflows and panics; the
truncated `Nat` subtraction here yields an empty output instead, and every
theorem below about saving only uses nonempty row lists.) -/
def saveOutput (rows : List EditorRow) : List Char :=
  ((rows.take (rows.length - 1)).map (fun r => r.chars ++ ['\n'])).flatten

/-- `EditorConfig::read_editor_key` on a queued byte stream: `none` when the
stream is empty (the read would block forever).  After an ESC byte the code
reads into a fixed zero-initialized 3-byte buffer, so it takes up to three
further bytes from the stream regardless of the sequence length. -/
def read_editor_key : List Nat → Option (EditorKey × List Nat)
  | [] => none
  | c :: rest =>
    if c = 27 then
      let b0 := rest.getD 0 0
      let b1 := rest.getD 1 0
      let b2 := rest.getD 2 0
      let key :=
        if b0 = 91 then
          if b1 = 68 then EditorKey.ArrowLeft
          else if b1 = 67 then EditorKey.ArrowRight
          else if b1 = 65 then EditorKey.ArrowUp
          else if b1 = 66 then EditorKey.ArrowDown
          else if b1 = 72 then EditorKey.HomeKey
          else if b1 = 70 then EditorKey.EndKey
          else if 49 ≤ b1 ∧ b1 ≤ 56 then
            if b2 = 126 then
              if b1 = 49 then EditorKey.HomeKey
              else if b1 = 50 then EditorKey.Insert
              else if b1 = 51 then EditorKey.DelKey
              else if b1 = 52 then EditorKey.EndKey
              else if b1 = 53 then EditorKey.PageUp
              else if b1 = 54 then EditorKey.PageDown
              else if b1 = 55 then EditorKey.HomeKey
              else EditorKey.EndKey
            else EditorKey.K 27
          else EditorKey.K 27
        else if b0 = 79 then
          if b1 = 72 then EditorKey.HomeKey
          else if b1 = 70 then EditorKey.EndKey
          else EditorKey.K 27
        else EditorKey.K 27
      some (key, rest.drop 3)
    else if c = 127 then
      some (EditorKey.Backspace, rest)
    else
      some (EditorKey.K c, rest)

/-- First loop of `get_cursor_position`: advance past the first `stop` byte,
returning the remaining bytes (empty when `stop` never occurs). -/
def findAfter (stop : Nat) : List Nat → List Nat
  | [] => []
  | b :: rest => if b = stop then rest else findAfter stop rest

/-- Digit-accumulation loops of `get_cursor_position`: fold
`acc * 10 + (b - b'0')` (wrapping `u8` subtraction) until the `stop` byte,
returning the accumulator and the bytes after the stop. -/
def accumUntil (stop : Nat) (acc : Nat) : List Nat → Nat × List Nat
  | [] => (acc, [])
  | b :: rest =>
    if b = stop then (acc, rest)
    else accumUntil stop (acc * 10 + (b + 208) % 256) rest

/-- `EditorConfig::get_cursor_position`: the reply bytes land in a
zero-initialized 32-byte buffer; the parse starts from `cx = cx_base`,
`cy = 1`, skips to the first `'R'` (82), accumulates digits to `';'` (59)
into `cx`, then to `'R'` into `cy`, and unconditionally stores the results. -/
def EditorConfig.get_cursor_position (st : EditorConfig) (reply : List Nat) :
    EditorConfig :=
  let buf := (reply ++ List.replicate 32 0).take 32
  let r1 := findAfter 82 buf
  let p1 := accumUntil 59 st.cx_base r1
  let p2 := accumUntil 82 1 p1.2
  { st with cx := p1.1, cy := p2.1 }

/-- `EditorConfig::curr_right_limit`: `none` models the panic of
`self.rows[self.rowoff + self.cy - 1]` when that index is out of bounds. -/
def EditorConfig.curr_right_limit (st : EditorConfig) : Option Nat :=
  match st.rows[st.rowoff + st.cy - 1]? with
  | none => none
  | some row => some (min st.screencols (row.len + st.cx_base - st.coloff))

/-- `EditorConfig::set_x_after_up_down` (`rightlim` recomputes the body of
`curr_right_limit` on the same row). -/
def EditorConfig.set_x_after_up_down (st : EditorConfig) : Option EditorConfig :=
  match st.rows[st.rowoff + st.cy - 1]? with
  | none => none
  | some row =>
    let len := row.len
    let rightlim := min st.screencols (len + st.cx_base - st.coloff)
    if len < st.coloff then
      some { st with coloff := len % 65536, cx := st.cx_base }
    else if st.rightted = false ∧ st.max_x < rightlim then
      some { st with cx := st.max_x }
    else
      some { st with cx := rightlim }

/-- Outcome of one iteration of the key-handling `match` in
`EditorConfig::run`: the new state, whether `run` returned (the `"q"`
command), and whether the `"w"` branch wrote the file. -/
structure StepResult where
  state : EditorConfig
  quit : Bool
  saved : Bool
deriving DecidableEq

/-- One iteration of the key-handling `match` in `EditorConfig::run`;
`none` models a panic (out-of-bounds row access or string edit). -/
def stepKey (st : EditorConfig) (key : EditorKey) : Option StepResult :=
  match key with
  | EditorKey.Insert =>
    match st.mode with
    | EditorMode.Normal => some ⟨{ st with mode := EditorMode.Insert }, false, false⟩
    | EditorMode.Insert => some ⟨{ st with mode := EditorMode.Normal }, false, false⟩
    | EditorMode.Command => some ⟨st, false, false⟩
  | EditorKey.ArrowLeft =>
    match st.mode with
    | EditorMode.Command =>
      if st.cmdix ≠ 0 then some ⟨{ st with cmdix := st.cmdix - 1 }, false, false⟩
      else some ⟨st, false, false⟩
    | _ =>
      let st1 :=
        if st.cx = st.cx_base then
          if 0 < st.coloff then { st with coloff := st.coloff - 1 } else st
        else
          { st with cx := st.cx - 1, max_x := st.cx - 1 }
      some ⟨{ st1 with max_x := st1.cx, rightted := false }, false, false⟩
  | EditorKey.ArrowRight =>
    match st.mode with
    | EditorMode.Command =>
      if st.cmdix ≠ st.cmd.length then some ⟨{ st with cmdix := st.cmdix + 1 }, false, false⟩
      else some ⟨st, false, false⟩
    | _ =>
      match st.rows[st.rowoff + st.cy - 1]? with
      | none => none
      | some row =>
        let st1 :=
          if st.cx = st.screencols ∧ st.cx - st.cx_base + st.coloff < row.len then
            { st with coloff := st.coloff + 1 }
          else
            let rightlim := min st.screencols (row.len + st.cx_base - st.coloff)
            if st.cx < rightlim then { st with cx := st.cx + 1 }
            else { st with cx := rightlim }
        some ⟨{ st1 with max_x := st1.cx }, false, false⟩
  | EditorKey.ArrowUp =>
    match st.mode with
    | EditorMode.Command => some ⟨st, false, false⟩
    | _ =>
      let st1 :=
        if st.cy = 1 then
          if 0 < st.rowoff then { st with rowoff := st.rowoff - 1 } else st
        else
          { st with cy := st.cy - 1 }
      match st1.set_x_after_up_down with
      | none => none
      | some st2 => some ⟨st2, false, false⟩
  | EditorKey.ArrowDown =>
    match st.mode with
    | EditorMode.Command => some ⟨st, false, false⟩
    | _ =>
      let st1 :=
        if st.cy + 1 = st.screenrows then
          if st.cy + st.rowoff < st.rows.length then { st with rowoff := st.rowoff + 1 } else st
        else if st.cy < st.screenrows - 1 then
          { st with cy := st.cy + 1 }
        else
          st
      match st1.set_x_after_up_down with
      | none => none
      | some st2 => some ⟨st2, false, false⟩
  | EditorKey.DelKey =>
    match st.mode with
    | EditorMode.Command => some ⟨st, false, false⟩
    | _ =>
      match st.curr_right_limit with
      | none => none
      | some rl =>
        if st.cx + st.coloff - st.cx_base = rl then
          match st.rows[st.cy - 1]? with
          | none => none
          | some row =>
            some ⟨{ st with rows := st.rows.set (st.cy - 1) row.pop, cx := st.cx - 1 },
                  false, false⟩
        else if st.cx_base ≤ st.cx then
          match st.rows[st.cy - 1]? with
          | none => none
          | some row =>
            match row.remove (st.cx - st.cx_base) with
            | none => none
            | some row2 =>
              some ⟨{ st with rows := st.rows.set (st.cy - 1) row2 }, false, false⟩
        else
          some ⟨st, false, false⟩
  | EditorKey.HomeKey =>
    some ⟨{ st with coloff := 0, cx := st.cx_base, max_x := st.cx_base, rightted := false },
          false, false⟩
  | EditorKey.EndKey =>
    match st.rows[st.rowoff + st.cy - 1]? with
    | none => none
    | some row =>
      let st1 :=
        if st.screencols - st.cx_base < row.len then
          { st with coloff := (row.len - (st.screencols - st.cx_base)) % 65536,
                    cx := st.screencols }
        else
          { st with cx := min (st.cx_base + row.len) st.screencols }
      some ⟨{ st1 with max_x := st1.cx, rightted := true }, false, false⟩
  | EditorKey.PageUp =>
    let ro := st.screenrows - st.cy - 1
    let st1 :=
      if ro < st.rowoff then { st with rowoff := st.rowoff - (ro + 1) }
      else { st with rowoff := 0 }
    match EditorConfig.set_x_after_up_down { st1 with cy := 1 } with
    | none => none
    | some st2 => some ⟨st2, false, false⟩
  | EditorKey.PageDown =>
    let bottom := st.screenrows - 1
    let st1 :=
      if st.rowoff + st.cy - 1 + bottom < st.rows.length then
        { st with rowoff := (st.rowoff + st.cy) % 65536 }
      else
        { st with rowoff := (st.rows.length - st.cy) % 65536 }
    match EditorConfig.set_x_after_up_down { st1 with cy := bottom } with
    | none => none
    | some st2 => some ⟨st2, false, false⟩
  | EditorKey.Backspace =>
    match st.mode with
    | EditorMode.Command =>
      if st.cmdix ≠ 0 then
        if st.cmdix - 1 < st.cmd.length then
          some ⟨{ st with cmd := st.cmd.eraseIdx (st.cmdix - 1), cmdix := st.cmdix - 1 },
                false, false⟩
        else
          none
      else
        some ⟨st, false, false⟩
    | _ =>
      if st.cx_base < st.cx then
        match st.rows[st.cy - 1]? with
        | none => none
        | some row =>
          match row.remove (st.cx - st.cx_base - 1) with
          | none => none
          | some row2 =>
            some ⟨{ st with rows := st.rows.set (st.cy - 1) row2, cx := st.cx - 1 },
                  false, false⟩
      else
        some ⟨st, false, false⟩
  | EditorKey.K c =>
    match st.mode with
    | EditorMode.Normal =>
      if c = 105 then some ⟨{ st with mode := EditorMode.Insert }, false, false⟩
      else if c = 58 then some ⟨{ st with mode := EditorMode.Command }, false, false⟩
      else some ⟨st, false, false⟩
    | EditorMode.Insert =>
      if c = 27 then some ⟨{ st with mode := EditorMode.Normal }, false, false⟩
      else if 31 < c ∧ c < 127 then
        match st.rows[st.rowoff + st.cy - 1]? with
        | none => none
        | some row =>
          if row.len ≤ st.coloff + st.cx - st.cx_base then
            let st1 := { st with
                         rows := st.rows.set (st.rowoff + st.cy - 1) (row.push (Char.ofNat c)),
                         max_x := max st.max_x st.cx }
            some ⟨{ st1 with cx := st1.cx + 1, max_x := max st1.max_x (st1.cx + 1) },
                  false, false⟩
          else
            match row.insert (st.rowoff + st.cx - st.cx_base) (Char.ofNat c) with
            | none => none
            | some row2 =>
              let st1 := { st with rows := st.rows.set (st.rowoff + st.cy - 1) row2 }
              some ⟨{ st1 with cx := st1.cx + 1, max_x := max st1.max_x (st1.cx + 1) },
                    false, false⟩
      else
        some ⟨st, false, false⟩
    | EditorMode.Command =>
      if c = 27 then some ⟨{ st with mode := EditorMode.Normal }, false, false⟩
      else if c = 13 then
        if st.cmd = ['q'] then
          some ⟨{ st with mode := EditorMode.Normal }, true, false⟩
        else if st.cmd = ['w'] then
          some ⟨{ st with mode := EditorMode.Normal, cmd := [], cmdix := 0 }, false, true⟩
        else
          some ⟨{ st with mode := EditorMode.Normal, cmd := [], cmdix := 0 }, false, false⟩
      else if c = 127 then
        if st.cmdix ≠ 0 then
          if st.cmdix - 1 < st.cmd.length then
            some ⟨{ st with cmd := st.cmd.eraseIdx (st.cmdix - 1), cmdix := st.cmdix - 1 },
                  false, false⟩
          else
            none
        else
          some ⟨st, false, false⟩
      else if 31 < c ∧ c < 127 then
        if st.cmdix = st.cmd.length then
          some ⟨{ st with cmd := st.cmd ++ [Char.ofNat c], cmdix := st.cmdix + 1 },
                false, false⟩
        else if st.cmdix < st.cmd.length then
          some ⟨{ st with cmd := listInsertAt st.cmdix (Char.ofNat c) st.cmd,
                          cmdix := st.cmdix + 1 },
                false, false⟩
        else
          none
      else
        some ⟨st, false, false⟩

/-- The key loop of `EditorConfig::run` on a list of already-decoded key
events: stop when a step quits, propagate panics. -/
def runKeys : EditorConfig → List EditorKey → Option EditorConfig
  | st, [] => some st
  | st, k :: ks =>
    match stepKey st k with
    | none => none
    | some r => if r.quit then some r.state else runKeys r.state ks

/-- A concrete well-formed editor state over the one-row document `["ab"]`
(gutter width 6, 80x24 terminal), used to instantiate the theorems below. -/
def baseState : EditorConfig :=
  { cx := 6
    cy := 1
    max_x := 6
    screenrows := 24
    screencols := 80
    rowoff := 0
    coloff := 0
    rightted := false
    rows := [EditorRow.new ['a', 'b']]
    cmd := []
    cmdix := 0
    mode := EditorMode.Normal
    cx_base := 6 }

theorem splitOnNl_ne_nil (s : List Char) : splitOnNl s ≠ [] := by
  cases s with
  | nil => simp [splitOnNl]
  | cons c rest =>
    simp only [splitOnNl]
    cases h : splitOnNl rest with
    | nil => simp
    | cons p ps =>
      by_cases hc : c = '\n' <;> simp [hc]

theorem splitOnNl_cons_nl (t : List Char) :
    splitOnNl ('\n' :: t) = [] :: splitOnNl t := by
  obtain ⟨p, ps, hps⟩ := List.exists_cons_of_ne_nil (splitOnNl_ne_nil t)
  simp [splitOnNl, hps]

theorem splitOnNl_cons_ne {c : Char} {t p : List Char} {ps : List (List Char)}
    (hc : c ≠ '\n') (h : splitOnNl t = p :: ps) :
    splitOnNl (c :: t) = (c :: p) :: ps := by
  simp [splitOnNl, h, hc]

theorem splitOnNl_append_nl (t : List Char) :
    splitOnNl (t ++ ['\n']) = splitOnNl t ++ [[]] := by
  induction t with
  | nil => rfl
  | cons c t ih =>
    by_cases hc : c = '\n'
    · subst hc
      rw [List.cons_append, splitOnNl_cons_nl, splitOnNl_cons_nl, ih, List.cons_append]
    · obtain ⟨p, ps, hps⟩ := List.exists_cons_of_ne_nil (splitOnNl_ne_nil t)
      have h2 : splitOnNl (t ++ ['\n']) = p :: (ps ++ [[]]) := by
        rw [ih, hps]
        rfl
      rw [List.cons_append, splitOnNl_cons_ne hc h2, splitOnNl_cons_ne hc hps]
      rfl

theorem mem_of_mem_splitOnNl {c : Char} {p s : List Char}
    (hp : p ∈ splitOnNl s) (hc : c ∈ p) : c ∈ s := by
  induction s generalizing p with
  | nil =>
    simp [splitOnNl] at hp
    subst hp
    simp at hc
  | cons d rest ih =>
    obtain ⟨q, qs, hqs⟩ := List.exists_cons_of_ne_nil (splitOnNl_ne_nil rest)
    by_cases hd : d = '\n'
    · subst hd
      rw [splitOnNl_cons_nl] at hp
      rcases List.mem_cons.mp hp with h1 | h2
      · subst h1
        simp at hc
      · exact List.mem_cons_of_mem _ (ih h2 hc)
    · rw [splitOnNl_cons_ne hd hqs] at hp
      rcases List.mem_cons.mp hp with h1 | h2
      · subst h1
        rcases List.mem_cons.mp hc with h3 | h3
        · subst h3
          exact List.mem_cons_self c rest
        · refine List.mem_cons_of_mem d (ih ?_ h3)
          rw [hqs]
          exact List.mem_cons_self q qs
      · refine List.mem_cons_of_mem d (ih ?_ hc)
        rw [hqs]
        exact List.mem_cons_of_mem q h2

theorem flatten_map_splitOnNl (t : List Char) :
    ((splitOnNl t).map (fun p => p ++ ['\n'])).flatten = t ++ ['\n'] := by
  induction t with
  | nil => rfl
  | cons c t ih =>
    by_cases hc : c = '\n'
    · subst hc
      rw [splitOnNl_cons_nl, List.map_cons, List.flatten_cons, ih]
      rfl
    · obtain ⟨q, qs, hqs⟩ := List.exists_cons_of_ne_nil (splitOnNl_ne_nil t)
      rw [splitOnNl_cons_ne hc hqs, List.map_cons, List.flatten_cons]
      rw [hqs, List.map_cons, List.flatten_cons] at ih
      simp only [List.cons_append, List.append_assoc] at ih ⊢
      rw [ih]

theorem splitOnNl_eq_singleton_iff (s : List Char) : splitOnNl s = [[]] ↔ s = [] := by
  constructor
  · intro h
    cases s with
    | nil => rfl
    | cons c rest =>
      obtain ⟨q, qs, hqs⟩ := List.exists_cons_of_ne_nil (splitOnNl_ne_nil rest)
      by_cases hc : c = '\n'
      · subst hc
        rw [splitOnNl_cons_nl] at h
        injection h with h1 h2
        exact absurd h2 (splitOnNl_ne_nil rest)
      · rw [splitOnNl_cons_ne hc hqs] at h
        injection h with h1 h2
        exact absurd h1 (List.cons_ne_nil c q)
  · intro h
    subst h
    rfl

theorem splitOnNl_getLast_ne_nil (s : List Char) (hs : s ≠ [])
    (hn : s.getLast? ≠ some '\n') :
    ∃ p, (splitOnNl s).getLast? = some p ∧ p ≠ [] := by
  induction s with
  | nil => exact absurd rfl hs
  | cons c rest ih =>
    cases rest with
    | nil =>
      have hc : c ≠ '\n' := by simpa [List.getLast?] using hn
      refine ⟨[c], ?_, by simp⟩
      rw [splitOnNl_cons_ne hc (show splitOnNl [] = [] :: [] from rfl)]
      rfl
    | cons d rest2 =>
      have hn2 : (d :: rest2).getLast? ≠ some '\n' := by
        rwa [List.getLast?_cons_cons] at hn
      obtain ⟨p, hp, hpne⟩ := ih (by simp) hn2
      obtain ⟨q, qs, hqs⟩ := List.exists_cons_of_ne_nil (splitOnNl_ne_nil (d :: rest2))
      by_cases hc : c = '\n'
      · subst hc
        rw [splitOnNl_cons_nl, hqs]
        rw [hqs] at hp
        refine ⟨p, ?_, hpne⟩
        rwa [List.getLast?_cons_cons]
      · rw [splitOnNl_cons_ne hc hqs]
        rw [hqs] at hp
        cases qs with
        | nil => exact ⟨c :: q, by simp, by simp⟩
        | cons q2 qs2 =>
          refine ⟨p, ?_, hpne⟩
          rw [List.getLast?_cons_cons]
          rwa [List.getLast?_cons_cons] at hp

theorem stripCr_eq_of_not_mem {p : List Char} (h : '\r' ∉ p) : stripCr p = p := by
  unfold stripCr
  rw [if_neg]
  intro hlast
  obtain ⟨hne, heq⟩ := List.mem_getLast?_eq_getLast hlast
  exact h (heq ▸ List.getLast_mem hne)

theorem findAfter_eq_nil_of_not_mem {stop : Nat} {l : List Nat} (h : stop ∉ l) :
    findAfter stop l = [] := by
  induction l with
  | nil => rfl
  | cons b rest ih =>
    simp only [List.mem_cons, not_or] at h
    simp only [findAfter, if_neg (Ne.symm h.1)]
    exact ih h.2

/-- Claim C1, counterexample: `curr_right_limit` returns the same value in
Insert and Normal mode (for the row `"ab"` it is the screen column 8, capped
by `min`), so the Insert-mode limit is neither `row.length` nor one greater
than the Normal-mode limit. -/
theorem c1_counterexample :
    EditorConfig.curr_right_limit { baseState with mode := EditorMode.Insert } =
      EditorConfig.curr_right_limit baseState ∧
    EditorConfig.curr_right_limit { baseState with mode := EditorMode.Insert } ≠
      (EditorConfig.curr_right_limit baseState).map (fun n => n + 1) ∧
    EditorConfig.curr_right_limit { baseState with mode := EditorMode.Insert } ≠
      some (EditorRow.new ['a', 'b']).len := by
  decide

/-- Claim C1 (amended): the cursor's right limit is mode-independent —
`curr_right_limit` reads only the current row length, the gutter width, the
column offset and the screen width, returning
`min screencols (row.len + cx_base - coloff)`; the same value is produced in
every mode, and it never exceeds the screen width. -/
theorem c1_right_limit_mode_independent (st : EditorConfig) (m : EditorMode) (n : Nat) :
    EditorConfig.curr_right_limit { st with mode := m } =
      EditorConfig.curr_right_limit st ∧
    (EditorConfig.curr_right_limit st = some n → n ≤ st.screencols) := by
  constructor
  · rfl
  · intro h
    unfold EditorConfig.curr_right_limit at h
    cases hrow : st.rows[st.rowoff + st.cy - 1]? with
    | none => rw [hrow] at h; cases h
    | some row =>
      rw [hrow] at h
      injection h with h
      omega

/-- Claim C1, witness for the amended theorem at the concrete state
`baseState` with `n = 8`. -/
theorem c1_witness :
    EditorConfig.curr_right_limit { baseState with mode := EditorMode.Command } =
      EditorConfig.curr_right_limit baseState ∧ (8 : Nat) ≤ 80 := by
  have h := c1_right_limit_mode_independent baseState EditorMode.Command 8
  exact ⟨h.1, h.2 (by decide)⟩

/-- Claim C4: evaluating the decoder at the byte stream `ESC [ D` followed by
the next keystroke byte `'x'` (120) shows the fixed three-byte read after ESC
consuming all four bytes: the result is `ArrowLeft` with an empty remaining
stream, not `ArrowLeft` with `[120]` left for the next keystroke as the claim
requires. -/
theorem c4_decoder_consumes_next_keystroke :
    read_editor_key [27, 91, 68, 120] = some (EditorKey.ArrowLeft, []) ∧
    read_editor_key [27, 91, 68, 120] ≠ some (EditorKey.ArrowLeft, [120]) := by
  decide

/-- Claim C5: `EditorRow::new` stores the UTF-8 *byte* length of the source
line, so the row built from the one-character line `"é"` has `len = 2` while
its character sequence has 1 element — the claimed invariant fails already at
load time for any non-ASCII source. -/
theorem c5_len_is_byte_count_not_char_count :
    (EditorRow.new ['é']).len = 2 ∧ (EditorRow.new ['é']).chars.length = 1 ∧
    (EditorRow.new ['é']).len ≠ (EditorRow.new ['é']).chars.length := by
  decide

/-- Claim C10: the row edit operations are silent no-ops outside the valid
index range and never panic there: `remove` at an index at or past the stored
length, `insert` at an index beyond the stored length, and `pop` on a row of
length 0 all return the row unchanged (`some` = no panic). -/
theorem c10_row_ops_out_of_range_noop (r : EditorRow) (ix : Nat) (c : Char) :
    (r.len ≤ ix → r.remove ix = some r) ∧
    (r.len < ix → r.insert ix c = some r) ∧
    (r.len = 0 → r.pop = r) := by
  refine ⟨fun h => ?_, fun h => ?_, fun h => ?_⟩
  · unfold EditorRow.remove
    rw [if_neg (by omega)]
  · unfold EditorRow.insert
    rw [if_neg (by omega)]
  · unfold EditorRow.pop
    rw [if_neg (by omega)]

/-- Claim C10, witness at the empty row with index 1 and character `'z'`. -/
theorem c10_witness :
    (EditorRow.new []).remove 1 = some (EditorRow.new []) ∧
    (EditorRow.new []).insert 1 'z' = some (EditorRow.new []) ∧
    (EditorRow.new []).pop = EditorRow.new [] := by
  have h := c10_row_ops_out_of_range_noop (EditorRow.new []) 1 'z'
  exact ⟨h.1 (by decide), h.2.1 (by decide), h.2.2 (by decide)⟩

theorem rustLines_eq_nil_iff (s : List Char) : rustLines s = [] ↔ s = [] := by
  constructor
  · intro h
    unfold rustLines at h
    rcases List.append_eq_nil.mp h with ⟨h1, h2⟩
    obtain ⟨q, qs, hqs⟩ := List.exists_cons_of_ne_nil (splitOnNl_ne_nil s)
    cases qs with
    | nil =>
      rw [hqs] at h2
      by_cases hq : q = []
      · subst hq
        exact (splitOnNl_eq_singleton_iff s).mp hqs
      · rw [show ([q] : List (List Char)).getLastD [] = q from rfl, if_neg hq] at h2
        cases h2
    | cons q2 qs2 =>
      rw [hqs] at h1
      rw [show (q :: q2 :: qs2).dropLast = q :: (q2 :: qs2).dropLast from rfl] at h1
      cases h1
  · intro h
    subst h
    rfl

theorem rustLines_append_nl (t : List Char) :
    rustLines (t ++ ['\n']) = (splitOnNl t).map stripCr := by
  unfold rustLines
  rw [splitOnNl_append_nl, List.dropLast_concat, List.getLastD_concat, if_pos rfl,
    List.append_nil]

/-- Claim C2, counterexample: loading the empty source yields a rowless
document (Rust `"".lines()` is an empty iterator and the trailing-row push
does not fire), not a document with one empty row. -/
theorem c2_counterexample :
    (EditorConfig.new []).rows = [] ∧
    (EditorConfig.new []).rows ≠ [EditorRow.new []] := by
  decide

/-- Claim C2 (amended): loading builds one row per newline-delimited line,
plus one trailing empty row exactly when the source ends in a newline, but an
empty source yields a rowless document: the row list is empty iff the source
is empty; when the source ends in a newline the last row is the empty row;
when a nonempty source does not end in a newline the last row is nonempty. -/
theorem c2_load_shape (s : List Char) :
    ((EditorConfig.new s).rows = [] ↔ s = []) ∧
    (s.getLast? = some '\n' →
      (EditorConfig.new s).rows.getLast? = some (EditorRow.new [])) ∧
    (s ≠ [] → s.getLast? ≠ some '\n' →
      (EditorConfig.new s).rows.getLast? ≠ some (EditorRow.new [])) := by
  have hrows : (EditorConfig.new s).rows = loadRows s := rfl
  refine ⟨?_, ?_, ?_⟩
  · rw [hrows]
    constructor
    · intro h
      unfold loadRows at h
      rcases List.append_eq_nil.mp h with ⟨h1, h2⟩
      exact (rustLines_eq_nil_iff s).mp (List.map_eq_nil_iff.mp h1)
    · intro h
      subst h
      rfl
  · intro h
    rw [hrows]
    unfold loadRows
    rw [if_pos h, List.getLast?_concat]
  · intro hs hn
    rw [hrows]
    unfold loadRows
    rw [if_neg hn, List.append_nil]
    obtain ⟨p, hp, hpne⟩ := splitOnNl_getLast_ne_nil s hs hn
    have hLD : (splitOnNl s).getLastD [] = p := by
      rw [List.getLastD_eq_getLast?, hp]
      rfl
    unfold rustLines
    rw [hLD, if_neg hpne, List.map_append]
    rw [show ([p] : List (List Char)).map EditorRow.new = [EditorRow.new p] from rfl,
      List.getLast?_concat]
    intro hE
    injection hE with hE
    exact hpne (congrArg EditorRow.chars hE)

/-- Claim C2, witness for the amended theorem at the sources `"\n"` (ends in
a newline: last row empty), `"a"` (nonempty, no trailing newline: last row
nonempty) and `""` (empty: rowless). -/
theorem c2_witness :
    (EditorConfig.new ['\n']).rows.getLast? = some (EditorRow.new []) ∧
    (EditorConfig.new ['a']).rows.getLast? ≠ some (EditorRow.new []) ∧
    ((EditorConfig.new []).rows = [] ↔ ([] : List Char) = []) :=
  ⟨(c2_load_shape ['\n']).2.1 (by decide),
   (c2_load_shape ['a']).2.2 (by decide) (by decide),
   (c2_load_shape []).1⟩

/-- Claim C3, counterexample: the save loop `for ix in 0..rows.len() - 1`
omits the last row unconditionally, not only a synthetic trailing one: the
one-line source `"a"` (no trailing newline) loads as the single row `"a"`
and saves back as the empty byte string, not as `"a"`. -/
theorem c3_counterexample :
    saveOutput (EditorConfig.new ['a']).rows = [] ∧
    saveOutput (EditorConfig.new ['a']).rows ≠ ['a'] := by
  decide

/-- Claim C3 (amended): saving writes every row except the last, each
followed by a newline; load-then-save reproduces the original bytes exactly
when the source ends in a newline and contains no carriage return (only the
synthetic trailing row is omitted); a nonempty source not ending in a newline
instead loses its final line on save. -/
theorem c3_round_trip (s : List Char) (h1 : s.getLast? = some '\n')
    (h2 : '\r' ∉ s) : saveOutput (EditorConfig.new s).rows = s := by
  have hne : s ≠ [] := by
    intro h
    subst h
    cases h1
  obtain ⟨t, rfl⟩ : ∃ t, s = t ++ ['\n'] := by
    refine ⟨s.dropLast, ?_⟩
    have h3 := List.dropLast_append_getLast hne
    have h4 : s.getLast hne = '\n' := by
      have h5 := List.getLast?_eq_getLast s hne
      rw [h1] at h5
      exact (Option.some.inj h5).symm
    rw [← h4]
    exact h3.symm
  have hr : '\r' ∉ t := fun hm => h2 (List.mem_append_left _ hm)
  have hstrip : (splitOnNl t).map stripCr = splitOnNl t := by
    have hmap := List.map_congr_left
      (fun p (hp : p ∈ splitOnNl t) =>
        stripCr_eq_of_not_mem (fun hcr => hr (mem_of_mem_splitOnNl hp hcr)))
    rw [hmap]
    simp
  have hrows : (EditorConfig.new (t ++ ['\n'])).rows =
      (splitOnNl t).map EditorRow.new ++ [EditorRow.new []] := by
    show loadRows (t ++ ['\n']) = _
    unfold loadRows
    rw [if_pos (List.getLast?_concat t), rustLines_append_nl, hstrip]
  rw [hrows]
  unfold saveOutput
  rw [List.take_left' (by simp), List.map_map]
  exact flatten_map_splitOnNl t

/-- Claim C3, witness for the amended round-trip theorem at the
newline-terminated source `"a\n"`. -/
theorem c3_witness :
    saveOutput (EditorConfig.new ['a', '\n']).rows = ['a', '\n'] :=
  c3_round_trip ['a', '\n'] (by decide) (by decide)

/-- Claim C6, counterexample: the reachable session `':' 'q' Enter` ends with
`run` returning while the state still holds `cmd = "q"` — on the `"q"` branch
the function returns before `cmd.clear()`, so the buffer is not cleared in
all cases as claimed. -/
theorem c6_counterexample :
    (runKeys (EditorConfig.new ['x'])
        [EditorKey.K 58, EditorKey.K 113, EditorKey.K 13]).map
      (fun st => (st.mode, st.cmd)) = some (EditorMode.Normal, ['q']) ∧
    (['q'] : List Char) ≠ [] := by
  decide

/-- Claim C6 (amended): pressing Enter in Command mode dispatches the command
text verbatim and always returns the mode to Normal: `"q"` terminates the
session (returning control to the caller) but leaves the command buffer
uncleared, since the dispatch returns before the clear; `"w"` invokes the
storage save exactly once and clears the buffer; any unrecognized command is
silently ignored and clears the buffer. -/
theorem c6_enter_dispatch (st : EditorConfig) (h : st.mode = EditorMode.Command) :
    (st.cmd = ['q'] →
      stepKey st (EditorKey.K 13) =
        some ⟨{ st with mode := EditorMode.Normal }, true, false⟩) ∧
    (st.cmd = ['w'] →
      stepKey st (EditorKey.K 13) =
        some ⟨{ st with mode := EditorMode.Normal, cmd := [], cmdix := 0 }, false, true⟩) ∧
    (st.cmd ≠ ['q'] → st.cmd ≠ ['w'] →
      stepKey st (EditorKey.K 13) =
        some ⟨{ st with mode := EditorMode.Normal, cmd := [], cmdix := 0 }, false, false⟩) := by
  refine ⟨fun hq => ?_, fun hw => ?_, fun hq hw => ?_⟩
  · simp [stepKey, h, hq]
  · simp [stepKey, h, hw]
  · simp [stepKey, h, hq, hw]

/-- Claim C6, witness for the amended theorem at concrete Command-mode states
with buffers `"q"`, `"w"` and `"z"`. -/
theorem c6_witness :
    stepKey { baseState with mode := EditorMode.Command, cmd := ['q'], cmdix := 1 }
        (EditorKey.K 13) =
      some ⟨{ baseState with mode := EditorMode.Normal, cmd := ['q'], cmdix := 1 },
            true, false⟩ ∧
    stepKey { baseState with mode := EditorMode.Command, cmd := ['w'], cmdix := 1 }
        (EditorKey.K 13) =
      some ⟨{ baseState with mode := EditorMode.Normal, cmd := [], cmdix := 0 },
            false, true⟩ ∧
    stepKey { baseState with mode := EditorMode.Command, cmd := ['z'], cmdix := 1 }
        (EditorKey.K 13) =
      some ⟨{ baseState with mode := EditorMode.Normal, cmd := [], cmdix := 0 },
            false, false⟩ :=
  ⟨(c6_enter_dispatch _ rfl).1 rfl,
   (c6_enter_dispatch _ rfl).2.1 rfl,
   (c6_enter_dispatch _ rfl).2.2 (by decide) (by decide)⟩

/-- Claim C7, counterexample: the reachable session `':' 'a' 'b' ESC ':'`
re-enters Command mode with the residual buffer `"ab"` and index 2 — neither
the ESC that left Command mode nor the ':' that re-entered it reset the
command line, so Command mode does not always start empty. -/
theorem c7_counterexample :
    (runKeys (EditorConfig.new ['x'])
        [EditorKey.K 58, EditorKey.K 97, EditorKey.K 98, EditorKey.K 27, EditorKey.K 58]).map
      (fun st => (st.mode, st.cmd, st.cmdix)) =
      some (EditorMode.Command, ['a', 'b'], 2) ∧
    (['a', 'b'] : List Char) ≠ [] := by
  decide

/-- Claim C7 (amended): neither the transition entering Command mode
(`':'` in Normal mode) nor the transition leaving it (ESC in Command mode)
touches the command buffer or its edit index — only the mode field changes;
the buffer is cleared only by the Enter dispatch of a non-`"q"` command, so
Command mode can start with residual text from an earlier cancelled
command. -/
theorem c7_transitions_preserve_cmd (st : EditorConfig) :
    (st.mode = EditorMode.Normal →
      stepKey st (EditorKey.K 58) =
        some ⟨{ st with mode := EditorMode.Command }, false, false⟩) ∧
    (st.mode = EditorMode.Command →
      stepKey st (EditorKey.K 27) =
        some ⟨{ st with mode := EditorMode.Normal }, false, false⟩) := by
  constructor
  · intro h
    simp [stepKey, h]
  · intro h
    simp [stepKey, h]

/-- Claim C7, witness for the amended theorem at concrete states holding the
residual buffer `"ab"`. -/
theorem c7_witness :
    stepKey { baseState with cmd := ['a', 'b'], cmdix := 2 } (EditorKey.K 58) =
      some ⟨{ baseState with cmd := ['a', 'b'], cmdix := 2, mode := EditorMode.Command },
            false, false⟩ ∧
    stepKey { baseState with cmd := ['a', 'b'], cmdix := 2, mode := EditorMode.Command }
        (EditorKey.K 27) =
      some ⟨{ baseState with cmd := ['a', 'b'], cmdix := 2, mode := EditorMode.Normal },
            false, false⟩ :=
  ⟨(c7_transitions_preserve_cmd _).1 rfl, (c7_transitions_preserve_cmd _).2 rfl⟩

/-- Claim C8, counterexample: with prior cursor `(cx, cy) = (10, 5)` and a
garbage reply (one byte `'x'`, the rest of the 32-byte buffer zero — no `'R'`
marker), `get_cursor_position` overwrites the prior coordinates with the
parse's start values `(cx_base, 1) = (6, 1)` instead of leaving them
unchanged. -/
theorem c8_counterexample :
    (EditorConfig.get_cursor_position { baseState with cx := 10, cy := 5 } [120]).cx = 6 ∧
    (EditorConfig.get_cursor_position { baseState with cx := 10, cy := 5 } [120]).cy = 1 ∧
    EditorConfig.get_cursor_position { baseState with cx := 10, cy := 5 } [120] ≠
      { baseState with cx := 10, cy := 5 } := by
  decide

/-- Claim C8 (amended): a malformed or missing cursor-position reply is
non-fatal (the parse always completes and the session continues), but the
prior coordinates are not retained: whenever the reply contains no `'R'`
marker byte, the parser stores its start values, resetting `cx` to `cx_base`
and `cy` to 1 and discarding the previous values. -/
theorem c8_missing_reply_resets (st : EditorConfig) (reply : List Nat)
    (h : 82 ∉ reply) :
    EditorConfig.get_cursor_position st reply =
      { st with cx := st.cx_base, cy := 1 } := by
  have hbuf : 82 ∉ (reply ++ List.replicate 32 0).take 32 := by
    intro hm
    rcases List.mem_append.mp (List.mem_of_mem_take hm) with h1 | h2
    · exact h h1
    · exact absurd (List.eq_of_mem_replicate h2) (by decide)
  simp only [EditorConfig.get_cursor_position]
  rw [findAfter_eq_nil_of_not_mem hbuf]
  rfl

/-- Claim C8, witness for the amended theorem at `baseState` with the reply
bytes `[1, 2, 3]`. -/
theorem c8_witness :
    EditorConfig.get_cursor_position baseState [1, 2, 3] =
      { baseState with cx := baseState.cx_base, cy := 1 } :=
  c8_missing_reply_resets baseState [1, 2, 3] (by decide)

/-- Claim C9, counterexample: ArrowRight in Normal mode does not clear the
end-of-line latch: starting with `rightted = true` over the row `"ab"`, the
cursor advances to screen column 7 but `rightted` is still `true` after the
move (only ArrowLeft and Home clear it). -/
theorem c9_counterexample :
    (stepKey { baseState with rightted := true } EditorKey.ArrowRight).map
      (fun r => (r.state.cx, r.state.rightted)) = some (7, true) ∧
    (stepKey { baseState with rightted := true } EditorKey.ArrowRight).map
      (fun r => r.state.rightted) ≠ some false := by
  decide

/-- Claim C9 (amended): in Normal or Insert mode, ArrowLeft updates the
sticky preferred column `max_x` to the new cursor position and clears the
end-of-line latch `rightted`; ArrowRight updates `max_x` to the new cursor
position but leaves the latch unchanged. -/
theorem c9_horizontal_moves (st : EditorConfig)
    (h : st.mode = EditorMode.Normal ∨ st.mode = EditorMode.Insert) :
    (∃ r, stepKey st EditorKey.ArrowLeft = some r ∧
      r.state.rightted = false ∧ r.state.max_x = r.state.cx) ∧
    (∀ r, stepKey st EditorKey.ArrowRight = some r →
      r.state.rightted = st.rightted ∧ r.state.max_x = r.state.cx) := by
  rcases h with h | h <;>
  · constructor
    · simp only [stepKey, h]
      exact ⟨_, rfl, rfl, rfl⟩
    · intro r hr
      simp only [stepKey, h] at hr
      cases hrow : st.rows[st.rowoff + st.cy - 1]? with
      | none => rw [hrow] at hr; cases hr
      | some row =>
        rw [hrow] at hr
        rw [← Option.some.inj hr]
        refine ⟨?_, rfl⟩
        split
        · rfl
        · split <;> rfl

/-- Claim C9, witness for the amended theorem at `baseState` in Insert
mode. -/
theorem c9_witness :
    ∃ r, stepKey { baseState with mode := EditorMode.Insert } EditorKey.ArrowLeft = some r ∧
      r.state.rightted = false ∧ r.state.max_x = r.state.cx :=
  (c9_horizontal_moves { baseState with mode := EditorMode.Insert } (Or.inr rfl)).1
